import Mathlib

/-!
Verification of the image resize/compress pipeline (IMAGE_COMPRESSION.py).

The core logic is embedded shallowly:
* `Img` models an in-memory PIL image (dimensions, color mode, abstract
  pixel content).
* `PILLib` abstracts the external imaging library: the actual JPEG/PNG
  serialisers and the resampler are opaque functions supplied as
  parameters; everything the repository itself computes is embedded
  concretely.
* Byte sizes are exact naturals.  The Python comparison
  `len(data) / 1024 <= target_kb` divides by a power of two, which is
  exact in binary floating point for any realistic byte length, so it is
  embedded as the equivalent integer comparison
  `(data.length : Int) ≤ 1024 * target_kb`.
* The binary-search loop is embedded with a fuel argument set to the size
  of the initial quality interval; the interval shrinks at every
  iteration, so this fuel is never exhausted (the preservation lemmas
  below do not depend on the fuel being large enough, and the theorems
  that do are proved for any sufficient fuel).
* Python `int` arithmetic is `Int` (`//` is `Int.fdiv`).
* The float arithmetic in `resize_image` is embedded as exact rational
  arithmetic, and Python `round` (banker's rounding, half to even) is
  `pythonRound` on `ℚ`.
* Object identity (which PIL image buffer a variable refers to) is made
  observable through a small heap: a `Heap` is the list of allocated
  image buffers and a reference is an index into it.  `Image.resize`
  always allocates a fresh buffer; returning the input unchanged keeps
  the old reference.
-/

/-- A decoded in-memory image: width, height, color mode (such as "RGB",
"RGBA" or "L"), and an abstract identifier for the pixel content. -/
structure Img where
  width : Nat
  height : Nat
  mode : String
  content : Nat
deriving DecidableEq

/-- The external imaging library (PIL), abstracted: opaque serialisers for
each format, the mode conversion used before JPEG encoding, and the
resampler producing the pixel content of a resized image. -/
structure PILLib where
  encodeJPEG : Img → Int → Bool → List Nat
  encodePNG : Img → Bool → List Nat
  encodeOther : Img → String → List Nat
  convertRGB : Img → Img
  resampleContent : Img → Nat → Nat → Nat

/-- Python `str.upper()` (ASCII case mapping suffices for the format names
used here), implemented structurally so the kernel can evaluate it. -/
def pyUpper (s : String) : String := String.mk (s.data.map Char.toUpper)

/-- Python `str.lower()`, implemented structurally. -/
def pyLower (s : String) : String := String.mk (s.data.map Char.toLower)

/-- Python `str.split(sep)` for a one-character separator, implemented
structurally: "a.b" ↦ ["a", "b"], "a." ↦ ["a", ""], "ab" ↦ ["ab"]. -/
def splitOnChar (sep : Char) : List Char → List (List Char)
  | [] => [[]]
  | c :: cs =>
    if c = sep then [] :: splitOnChar sep cs
    else
      match splitOnChar sep cs with
      | [] => [[c]]
      | g :: gs => (c :: g) :: gs

/-- Embedding of `_img_to_bytes(img, fmt, quality=85, optimize=True)`:
normalises the format name, converts the mode to RGB for JPEG when it is
neither "RGB" nor "L", and serialises.  Call sites pass the Python default
arguments (quality 85, optimize True) explicitly. -/
def _img_to_bytes (E : PILLib) (img : Img) (fmt : String) (quality : Int) (optimize : Bool) : List Nat :=
  let fmt_upper := pyUpper fmt
  if fmt_upper = "JPG" ∨ fmt_upper = "JPEG" then
    let img2 := if img.mode = "RGB" ∨ img.mode = "L" then img else E.convertRGB img
    E.encodeJPEG img2 quality optimize
  else if fmt_upper = "PNG" then
    E.encodePNG img optimize
  else
    E.encodeOther img fmt_upper

/-- The JPEG encoding the search probes at a given quality:
`_img_to_bytes(img, "JPEG", quality=q)` with the default optimize=True. -/
def encAt (E : PILLib) (img : Img) (q : Int) : List Nat :=
  _img_to_bytes E img "JPEG" q true

/-- The `while low <= high` loop of `_binary_search_quality`, with a fuel
argument for structural recursion (the entry point passes the size of the
interval, which is an upper bound on the number of iterations).  Returns
the final `res` together with the list of qualities encoded by the loop,
in order (one per iteration). -/
def bsLoop (enc : Int → List Nat) (target_kb : Int) : Nat → Int → Int → Option (List Nat) → Option (List Nat) × List Int
  | 0, _, _, res => (res, [])
  | fuel + 1, low, high, res =>
    if low ≤ high then
      let mid := Int.fdiv (low + high) 2
      let data := enc mid
      if (data.length : Int) ≤ 1024 * target_kb then
        let rest := bsLoop enc target_kb fuel (mid + 1) high (some data)
        (rest.1, mid :: rest.2)
      else
        let rest := bsLoop enc target_kb fuel low (mid - 1) res
        (rest.1, mid :: rest.2)
    else (res, [])

/-- Embedding of `_binary_search_quality(img, fmt, target_kb, q_low=5,
q_high=95)`.  PNG short-circuits to one optimized encode; otherwise encode
at `q_high` first, return it if it already meets the target, and otherwise
binary-search the interval, falling back to the `q_high` encoding when no
probed quality met the target. -/
def _binary_search_quality (E : PILLib) (img : Img) (fmt : String) (target_kb : Int) (q_low : Int) (q_high : Int) : List Nat :=
  if pyUpper fmt = "PNG" then
    _img_to_bytes E img "PNG" 85 true
  else
    let best := _img_to_bytes E img "JPEG" q_high true
    if (best.length : Int) ≤ 1024 * target_kb then best
    else ((bsLoop (encAt E img) target_kb (q_high + 1 - q_low).toNat q_low q_high none).1).getD best

/-- The qualities actually encoded inside the binary-search loop of
`_binary_search_quality` on the JPEG path (empty when the initial `q_high`
encoding already meets the target and the loop is never entered). -/
def bsqTested (E : PILLib) (img : Img) (target_kb : Int) (q_low : Int) (q_high : Int) : List Int :=
  let best := _img_to_bytes E img "JPEG" q_high true
  if (best.length : Int) ≤ 1024 * target_kb then []
  else (bsLoop (encAt E img) target_kb (q_high + 1 - q_low).toNat q_low q_high none).2

/-- Python `round` on an exact rational: round half to even. -/
def pythonRound (x : ℚ) : ℤ :=
  let f := Int.floor x
  let r := x - f
  if r < 1 / 2 then f
  else if 1 / 2 < r then f + 1
  else if f % 2 = 0 then f else f + 1

/-- A heap of allocated image buffers; an image reference is an index. -/
structure Heap where
  imgs : List Img
deriving DecidableEq

/-- Default image used to read a heap reference (never reached for valid
references). -/
def dfltImg : Img := { width := 0, height := 0, mode := "RGB", content := 0 }

/-- Embedding of `resize_image(image, target_size_kb, percent_change)`
over the heap: when `percent_change ≠ 0` compute the scaled dimensions
(clamped to 1), let the library resample (`image.resize` allocates a new
buffer, appended to the heap) and return the fresh reference; otherwise
return the input reference unchanged.  `target_size_kb` is accepted and
ignored, as in the source. -/
def resize_image (E : PILLib) (h : Heap) (r : Nat) (target_size_kb : Int) (percent_change : Int) : Heap × Nat :=
  if percent_change ≠ 0 then
    let image := h.imgs.getD r dfltImg
    let factor : ℚ := 1 + (percent_change : ℚ) / 100
    let new_w : Nat := (max 1 (pythonRound ((image.width : ℚ) * factor))).toNat
    let new_h : Nat := (max 1 (pythonRound ((image.height : ℚ) * factor))).toNat
    let out : Img := { width := new_w, height := new_h, mode := image.mode,
                       content := E.resampleContent image new_w new_h }
    ({ imgs := h.imgs ++ [out] }, h.imgs.length)
  else (h, r)

/-- Embedding of the extension computation in `export_image`:
`filename.split(".")[-1].lower() if "." in filename else "jpg"`. -/
def extOf (filename : String) : String :=
  if filename.data.contains '.' then
    pyLower (String.mk ((splitOnChar '.' filename.data).getLastD []))
  else "jpg"

/-- Embedding of `export_image(img, filename, target_size_kb)`: pick the
format from the filename extension; for JPEG (and the default fallback)
run the quality search only when `target_size_kb` is truthy and positive,
otherwise encode once at the default quality 85; for PNG encode once with
optimize. -/
def export_image (E : PILLib) (img : Img) (filename : String) (target_size_kb : Int) : List Nat :=
  let ext := extOf filename
  if ext = "jpg" ∨ ext = "jpeg" then
    if target_size_kb ≠ 0 ∧ target_size_kb > 0 then
      _binary_search_quality E img "JPEG" target_size_kb 5 95
    else _img_to_bytes E img "JPEG" 85 true
  else if ext = "png" then
    _img_to_bytes E img "PNG" 85 true
  else
    if target_size_kb ≠ 0 ∧ target_size_kb > 0 then
      _binary_search_quality E img "JPEG" target_size_kb 5 95
    else _img_to_bytes E img "JPEG" 85 true

/-- A concrete 4×3 RGB image used in witnesses and counterexamples. -/
def constImg : Img := { width := 4, height := 3, mode := "RGB", content := 0 }

/-- A concrete library whose JPEG serialiser produces `q + 2` bytes at
quality `q`: monotone in quality, and never empty, so with target 0 every
quality fails. -/
def encLib1 : PILLib :=
  { encodeJPEG := fun _ q _ => List.replicate (q.toNat + 2) 0
    encodePNG := fun _ _ => [7]
    encodeOther := fun _ _ => []
    convertRGB := fun i => i
    resampleContent := fun _ _ _ => 0 }

/-- A concrete heap holding the single image `constImg` at reference 0. -/
def heap0 : Heap := { imgs := [constImg] }

/-! ### Lemmas about the binary-search loop -/

/-- When the loop is entered, the probed quality is inside the current
interval. -/
lemma bsMid_bounds {low high : Int} (h : low ≤ high) :
    low ≤ Int.fdiv (low + high) 2 ∧ Int.fdiv (low + high) 2 ≤ high := by
  rw [Int.fdiv_eq_ediv _ (by omega : (0:Int) ≤ 2)]
  omega

/-- An empty interval produces no probes. -/
lemma bsLoop_tested_nil (enc : Int → List Nat) (T : Int) :
    ∀ fuel low high res, high < low → (bsLoop enc T fuel low high res).2 = [] := by
  intro fuel low high res hlt
  cases fuel with
  | zero => rfl
  | succ fuel => simp [bsLoop, not_le.mpr hlt]

/-- Once `res` holds a passing encoding, the loop's final result is some
passing encoding (the fail branch keeps `res`, the pass branch replaces it
with another passing encoding). -/
lemma bsLoop_keeps (enc : Int → List Nat) (T : Int) :
    ∀ fuel low high d, (d.length : Int) ≤ 1024 * T →
      ∃ d2, (bsLoop enc T fuel low high (some d)).1 = some d2 ∧ (d2.length : Int) ≤ 1024 * T := by
  intro fuel
  induction fuel with
  | zero => intro low high d hd; exact ⟨d, rfl, hd⟩
  | succ fuel ih =>
    intro low high d hd
    by_cases hlh : low ≤ high
    · simp only [bsLoop, if_pos hlh]
      by_cases hpass : ((enc (Int.fdiv (low + high) 2)).length : Int) ≤ 1024 * T
      · simpa only [if_pos hpass] using ih _ high _ hpass
      · simpa only [if_neg hpass] using ih low _ d hd
    · exact ⟨d, by simp [bsLoop, hlh], hd⟩

/-- If the lowest quality of the interval passes, the loop finds some
passing encoding, given at least `high + 1 - low` units of fuel. -/
lemma bsLoop_finds (enc : Int → List Nat) (T : Int) :
    ∀ fuel (low high : Int) res, low ≤ high →
      ((enc low).length : Int) ≤ 1024 * T →
      (high + 1 - low).toNat ≤ fuel →
      ∃ d2, (bsLoop enc T fuel low high res).1 = some d2 ∧ (d2.length : Int) ≤ 1024 * T := by
  intro fuel
  induction fuel with
  | zero => intro low high res hlh _ hfu; omega
  | succ fuel ih =>
    intro low high res hlh hlow hfu
    simp only [bsLoop, if_pos hlh]
    have hmid := bsMid_bounds hlh
    by_cases hpass : ((enc (Int.fdiv (low + high) 2)).length : Int) ≤ 1024 * T
    · simpa only [if_pos hpass] using bsLoop_keeps enc T fuel _ high _ hpass
    · have hne : Int.fdiv (low + high) 2 ≠ low := fun he => hpass (by rw [he]; exact hlow)
      have hlt : low < Int.fdiv (low + high) 2 := lt_of_le_of_ne hmid.1 (Ne.symm hne)
      simpa only [if_neg hpass] using
        ih low (Int.fdiv (low + high) 2 - 1) res (by omega) hlow (by omega)

/-- If every quality probed by the loop fails the size test, `res` is
never set: starting from `none` the loop ends with `none`. -/
lemma bsLoop_none (enc : Int → List Nat) (T : Int) :
    ∀ fuel low high,
      (∀ m ∈ (bsLoop enc T fuel low high none).2, ¬ ((enc m).length : Int) ≤ 1024 * T) →
      (bsLoop enc T fuel low high none).1 = none := by
  intro fuel
  induction fuel with
  | zero => intro low high _; rfl
  | succ fuel ih =>
    intro low high hall
    by_cases hlh : low ≤ high
    · have hmid : ¬ ((enc (Int.fdiv (low + high) 2)).length : Int) ≤ 1024 * T := by
        apply hall
        simp only [bsLoop, if_pos hlh]
        by_cases hpass : ((enc (Int.fdiv (low + high) 2)).length : Int) ≤ 1024 * T
        · simp [if_pos hpass]
        · simp [if_neg hpass]
      simp only [bsLoop, if_pos hlh, if_neg hmid]
      apply ih
      intro m hm
      apply hall
      simp only [bsLoop, if_pos hlh, if_neg hmid]
      exact List.mem_cons_of_mem _ hm
    · simp [bsLoop, hlh]

/-- Every quality probed by the loop lies inside the initial interval. -/
lemma bsLoop_tested_bounds (enc : Int → List Nat) (T : Int) :
    ∀ fuel (low high : Int) res m, m ∈ (bsLoop enc T fuel low high res).2 →
      low ≤ m ∧ m ≤ high := by
  intro fuel
  induction fuel with
  | zero => intro low high res m hm; simp [bsLoop] at hm
  | succ fuel ih =>
    intro low high res m hm
    by_cases hlh : low ≤ high
    · have hmid := bsMid_bounds hlh
      simp only [bsLoop, if_pos hlh] at hm
      by_cases hpass : ((enc (Int.fdiv (low + high) 2)).length : Int) ≤ 1024 * T
      · rw [if_pos hpass] at hm
        rcases List.mem_cons.mp hm with he | hm2
        · omega
        · have := ih _ high _ m hm2
          omega
      · rw [if_neg hpass] at hm
        rcases List.mem_cons.mp hm with he | hm2
        · omega
        · have := ih low _ _ m hm2
          omega
    · simp [bsLoop, hlh] at hm

/-- The loop probes at most `⌊log2 n⌋ + 1` qualities, where `n` is the
size of the initial interval: each iteration at least halves the
interval. -/
lemma bsLoop_tested_length (enc : Int → List Nat) (T : Int) :
    ∀ fuel (low high : Int) res,
      (bsLoop enc T fuel low high res).2.length ≤ Nat.log2 (high + 1 - low).toNat + 1 := by
  intro fuel
  induction fuel with
  | zero => intro low high res; simp [bsLoop]
  | succ fuel ih =>
    intro low high res
    by_cases hlh : low ≤ high
    · have hmid := bsMid_bounds hlh
      have hfd : Int.fdiv (low + high) 2 = (low + high) / 2 :=
        Int.fdiv_eq_ediv _ (by omega)
      simp only [bsLoop, if_pos hlh]
      by_cases hpass : ((enc (Int.fdiv (low + high) 2)).length : Int) ≤ 1024 * T
      · rw [if_pos hpass]
        simp only [List.length_cons]
        by_cases hend : high < Int.fdiv (low + high) 2 + 1
        · rw [bsLoop_tested_nil enc T fuel _ high _ hend]
          simp [Nat.succ_le_succ (Nat.zero_le _)]
        · have h1 := ih (Int.fdiv (low + high) 2 + 1) high (some (enc (Int.fdiv (low + high) 2)))
          have hhalf : (high + 1 - (Int.fdiv (low + high) 2 + 1)).toNat ≤ (high + 1 - low).toNat / 2 := by
            rw [hfd] at *
            omega
          have hpos : 1 ≤ (high + 1 - (Int.fdiv (low + high) 2 + 1)).toNat := by omega
          have h2 : Nat.log2 (high + 1 - (Int.fdiv (low + high) 2 + 1)).toNat + 1 ≤
              Nat.log2 (high + 1 - low).toNat := by
            have hgetwo : 2 ≤ (high + 1 - low).toNat := by omega
            conv_rhs => rw [Nat.log2]
            rw [if_pos hgetwo]
            have := @Nat.log_mono_right 2 _ _ (hhalf.trans (le_refl _))
            simp only [Nat.log2_eq_log_two]
            omega
          omega
      · rw [if_neg hpass]
        simp only [List.length_cons]
        by_cases hend : Int.fdiv (low + high) 2 - 1 < low
        · rw [bsLoop_tested_nil enc T fuel low _ _ hend]
          simp [Nat.succ_le_succ (Nat.zero_le _)]
        · have h1 := ih low (Int.fdiv (low + high) 2 - 1) res
          have hhalf : (Int.fdiv (low + high) 2 - 1 + 1 - low).toNat ≤ (high + 1 - low).toNat / 2 := by
            rw [hfd] at *
            omega
          have hpos : 1 ≤ (Int.fdiv (low + high) 2 - 1 + 1 - low).toNat := by omega
          have h2 : Nat.log2 (Int.fdiv (low + high) 2 - 1 + 1 - low).toNat + 1 ≤
              Nat.log2 (high + 1 - low).toNat := by
            have hgetwo : 2 ≤ (high + 1 - low).toNat := by omega
            conv_rhs => rw [Nat.log2]
            rw [if_pos hgetwo]
            have := @Nat.log_mono_right 2 _ _ (hhalf.trans (le_refl _))
            simp only [Nat.log2_eq_log_two]
            omega
          omega
    · simp [bsLoop, hlh]

/-- A concrete library whose JPEG output at quality `q` has `q.toNat`
bytes: sizes strictly monotone in quality. -/
def encLib2 : PILLib :=
  { encodeJPEG := fun _ q _ => List.replicate q.toNat 0
    encodePNG := fun _ _ => [7]
    encodeOther := fun _ _ => []
    convertRGB := fun i => i
    resampleContent := fun _ _ _ => 0 }

/-- A concrete library whose JPEG output always has 1025 bytes (so a 1 KB
target can never be met), with the quality recorded in the first byte so
encodings at different qualities are distinguishable. -/
def encLib3 : PILLib :=
  { encodeJPEG := fun _ q _ => q.toNat :: List.replicate 1024 0
    encodePNG := fun _ _ => [7]
    encodeOther := fun _ _ => []
    convertRGB := fun i => i
    resampleContent := fun _ _ _ => 0 }

lemma encLib1_encAt (q : Int) : encAt encLib1 constImg q = List.replicate (q.toNat + 2) 0 := rfl

lemma encLib2_encAt (q : Int) : encAt encLib2 constImg q = List.replicate q.toNat 0 := rfl

lemma encLib3_encAt (q : Int) : encAt encLib3 constImg q = q.toNat :: List.replicate 1024 0 := rfl

/-! ### The claims -/

/-- C1: for every image and positive target size, if some quality `q`
with `q_low ≤ q ≤ q_high` yields a JPEG encoding of size at most
`targetKB` kilobytes, then `_binary_search_quality(img, "JPEG", targetKB,
q_low, q_high)` returns bytes of size at most `targetKB` kilobytes.  The
JPEG encoder's size is monotone in quality — the encoder property the
spec assumes the search to rely on. -/
theorem c1_jpeg_meets_target (E : PILLib) (img : Img) (targetKB q_low q_high q : Int)
    (hmono : ∀ a b : Int, a ≤ b → (encAt E img a).length ≤ (encAt E img b).length)
    (hT : 0 < targetKB) (hq1 : q_low ≤ q) (hq2 : q ≤ q_high)
    (hq : ((encAt E img q).length : Int) ≤ 1024 * targetKB) :
    ((_binary_search_quality E img "JPEG" targetKB q_low q_high).length : Int) ≤ 1024 * targetKB := by
  simp only [_binary_search_quality]
  rw [if_neg (by decide : ¬ (pyUpper "JPEG" = "PNG"))]
  by_cases hbest : ((_img_to_bytes E img "JPEG" q_high true).length : Int) ≤ 1024 * targetKB
  · rw [if_pos hbest]; exact hbest
  · rw [if_neg hbest]
    have hlow : ((encAt E img q_low).length : Int) ≤ 1024 * targetKB :=
      le_trans (Int.ofNat_le.mpr (hmono q_low q hq1)) hq
    obtain ⟨d2, hd2, hsize⟩ := bsLoop_finds (encAt E img) targetKB
      ((q_high + 1 - q_low).toNat) q_low q_high none (le_trans hq1 hq2) hlow (le_refl _)
    rw [hd2]
    exact hsize

/-- C1 witness: with a monotone encoder of `q` bytes at quality `q` and a
1 KB target, quality 5 meets the target and the returned bytes fit in
1 KB. -/
theorem c1_witness :
    (0:Int) < 1 ∧ (5:Int) ≤ 5 ∧ (5:Int) ≤ 95 ∧
      ((encAt encLib2 constImg 5).length : Int) ≤ 1024 * 1 ∧
      ((_binary_search_quality encLib2 constImg "JPEG" 1 5 95).length : Int) ≤ 1024 * 1 :=
  ⟨by decide, by decide, by decide, by decide,
    c1_jpeg_meets_target encLib2 constImg 1 5 95 5
      (fun a b hab => by
        rw [encLib2_encAt, encLib2_encAt, List.length_replicate, List.length_replicate]
        omega)
      (by decide) (by decide) (by decide) (by decide)⟩

set_option maxRecDepth 40000 in
/-- C2 counterexample: with an encoder always producing 1025 bytes
(quality recorded in the first byte) and a 1 KB target — smaller than the
size at quality 5 — the search does not return the quality-5 encoding
(it returns the quality-95 one). -/
theorem c2_counterexample :
    1024 * (1:Int) < ((encAt encLib3 constImg 5).length : Int) ∧
      _binary_search_quality encLib3 constImg "JPEG" 1 5 95 ≠ encAt encLib3 constImg 5 :=
  ⟨by decide, by decide⟩

/-- C2 amended: when `targetKB` is smaller than the size of the encoding
at the lowest quality (quality 5, sizes monotone in quality), the quality
search returns the quality-95 encoding — the highest-quality encoding of
step 1 — as best-effort fallback, and the achieved size exceeds the
target so the caller can detect the target was unmet. -/
theorem c2_amended_fallback (E : PILLib) (img : Img) (targetKB : Int)
    (hmono : ∀ a b : Int, a ≤ b → (encAt E img a).length ≤ (encAt E img b).length)
    (hlow : 1024 * targetKB < ((encAt E img 5).length : Int)) :
    _binary_search_quality E img "JPEG" targetKB 5 95 = encAt E img 95 ∧
      1024 * targetKB < ((_binary_search_quality E img "JPEG" targetKB 5 95).length : Int) := by
  have hall : ∀ m : Int, 5 ≤ m → ¬ ((encAt E img m).length : Int) ≤ 1024 * targetKB := by
    intro m hm hc
    have := hmono 5 m hm
    omega
  have hbest : ¬ ((_img_to_bytes E img "JPEG" 95 true).length : Int) ≤ 1024 * targetKB :=
    hall 95 (by omega)
  have hmain : _binary_search_quality E img "JPEG" targetKB 5 95 = encAt E img 95 := by
    simp only [_binary_search_quality]
    rw [if_neg (by decide : ¬ (pyUpper "JPEG" = "PNG")), if_neg hbest]
    have hfail2 : ∀ m ∈ (bsLoop (encAt E img) targetKB (((95:Int) + 1 - 5).toNat) 5 95 none).2,
        ¬ ((encAt E img m).length : Int) ≤ 1024 * targetKB := by
      intro m hm
      exact hall m (bsLoop_tested_bounds (encAt E img) targetKB _ 5 95 none m hm).1
    rw [bsLoop_none (encAt E img) targetKB _ 5 95 hfail2]
    rfl
  refine ⟨hmain, ?_⟩
  rw [hmain]
  have := hmono 5 95 (by omega)
  omega

set_option maxRecDepth 40000 in
/-- C2 amended witness: with the constant-size 1025-byte encoder and a
1 KB target, the search returns the quality-95 encoding. -/
theorem c2_amended_witness :
    1024 * (1:Int) < ((encAt encLib3 constImg 5).length : Int) ∧
      _binary_search_quality encLib3 constImg "JPEG" 1 5 95 = encAt encLib3 constImg 95 :=
  ⟨by decide,
    (c2_amended_fallback encLib3 constImg 1
      (fun a b hab => by
        rw [encLib3_encAt, encLib3_encAt]
        simp)
      (by decide)).1⟩

/-- C3: if no quality probed during the binary-search loop yields a size
within the target, `_binary_search_quality` returns the encoding produced
in step 1 at `q_high` as the fallback result. -/
theorem c3_fallback_is_qhigh (E : PILLib) (img : Img) (targetKB q_low q_high : Int)
    (hfail : ∀ m ∈ bsqTested E img targetKB q_low q_high,
        ¬ ((encAt E img m).length : Int) ≤ 1024 * targetKB) :
    _binary_search_quality E img "JPEG" targetKB q_low q_high = _img_to_bytes E img "JPEG" q_high true := by
  simp only [_binary_search_quality]
  rw [if_neg (by decide : ¬ (pyUpper "JPEG" = "PNG"))]
  by_cases hbest : ((_img_to_bytes E img "JPEG" q_high true).length : Int) ≤ 1024 * targetKB
  · rw [if_pos hbest]
  · rw [if_neg hbest]
    have hfail2 : ∀ m ∈ (bsLoop (encAt E img) targetKB ((q_high + 1 - q_low).toNat) q_low q_high none).2,
        ¬ ((encAt E img m).length : Int) ≤ 1024 * targetKB := by
      intro m hm
      apply hfail
      simp only [bsqTested]
      rw [if_neg hbest]
      exact hm
    rw [bsLoop_none (encAt E img) targetKB _ q_low q_high hfail2]
    rfl

/-- C3 witness: with the `q + 2`-byte encoder and target 0 every probed
quality fails, and the function returns the quality-95 encoding. -/
theorem c3_witness :
    (∀ m ∈ bsqTested encLib1 constImg 0 5 95,
        ¬ ((encAt encLib1 constImg m).length : Int) ≤ 1024 * 0) ∧
      _binary_search_quality encLib1 constImg "JPEG" 0 5 95 = _img_to_bytes encLib1 constImg "JPEG" 95 true :=
  ⟨by decide, c3_fallback_is_qhigh encLib1 constImg 0 5 95 (by decide)⟩

set_option maxRecDepth 40000 in
/-- C8 counterexample: with the constant-size 1025-byte encoder and the
positive target of 1 KB, the binary-search loop over the default bounds
5..95 runs 6 iterations, exceeding the claimed bound of 5. -/
theorem c8_counterexample :
    (0 : Int) < 1 ∧ ¬ ((bsqTested encLib3 constImg 1 5 95).length ≤ 5) :=
  ⟨by decide, by decide⟩

/-- C8 amended: the binary-search loop executes at most
`⌊log2 (q_high - q_low + 1)⌋ + 1` iterations (one encode per iteration),
which for the default bounds `q_low = 5`, `q_high = 95` is at most 7. -/
theorem c8_amended_iteration_bound :
    (∀ (E : PILLib) (img : Img) (targetKB q_low q_high : Int),
        (bsqTested E img targetKB q_low q_high).length ≤ Nat.log2 (q_high + 1 - q_low).toNat + 1) ∧
      (∀ (E : PILLib) (img : Img) (targetKB : Int),
        (bsqTested E img targetKB 5 95).length ≤ 7) := by
  have hgen : ∀ (E : PILLib) (img : Img) (targetKB q_low q_high : Int),
      (bsqTested E img targetKB q_low q_high).length ≤ Nat.log2 (q_high + 1 - q_low).toNat + 1 := by
    intro E img T qlo qhi
    simp only [bsqTested]
    by_cases hbest : ((_img_to_bytes E img "JPEG" qhi true).length : Int) ≤ 1024 * T
    · rw [if_pos hbest]
      simp
    · rw [if_neg hbest]
      exact bsLoop_tested_length (encAt E img) T _ qlo qhi none
  refine ⟨hgen, fun E img T => ?_⟩
  have h := hgen E img T 5 95
  have h91 : ((95:Int) + 1 - 5).toNat = 91 := by decide
  have hlog : Nat.log2 91 = 6 := by
    rw [Nat.log2_eq_log_two]
    exact Nat.log_eq_of_pow_le_of_lt_pow (by norm_num) (by norm_num)
  rw [h91, hlog] at h
  omega

/-- C10: every quality probed by the binary-search loop lies within the
given bounds `q_low ≤ mid ≤ q_high`. -/
theorem c10_probes_within_bounds (E : PILLib) (img : Img) (targetKB q_low q_high m : Int)
    (hm : m ∈ bsqTested E img targetKB q_low q_high) : q_low ≤ m ∧ m ≤ q_high := by
  simp only [bsqTested] at hm
  by_cases hbest : ((_img_to_bytes E img "JPEG" q_high true).length : Int) ≤ 1024 * targetKB
  · rw [if_pos hbest] at hm
    simp at hm
  · rw [if_neg hbest] at hm
    exact bsLoop_tested_bounds (encAt E img) targetKB _ q_low q_high none m hm

/-- C10 witness: quality 50 is probed first on the default bounds with
the `q + 2`-byte encoder and target 0, and 5 ≤ 50 ≤ 95. -/
theorem c10_witness : (5:Int) ≤ 50 ∧ (50:Int) ≤ 95 :=
  c10_probes_within_bounds encLib1 constImg 0 5 95 50 (by decide)

/-! ### Resizer and exporter claims -/

/-- A dimension clamped with `max 1` is at least 1 after `toNat`. -/
lemma one_le_clamp (x : ℤ) : 1 ≤ (max 1 x).toNat := by
  have := le_max_left 1 x
  omega

/-- Python `round` of an integer is that integer. -/
lemma pythonRound_intCast (n : ℤ) : pythonRound ((n : ℤ) : ℚ) = n := by
  simp only [pythonRound, Int.floor_intCast, sub_self]
  norm_num

/-- Python `round` of a natural number is that number. -/
lemma pythonRound_natCast (n : ℕ) : pythonRound ((n : ℕ) : ℚ) = n := by
  rw [show ((n : ℕ) : ℚ) = (((n : ℕ) : ℤ) : ℚ) by push_cast; ring]
  exact pythonRound_intCast n

/-- With a non-zero percentage, the image at the returned reference is the
freshly resampled one, with both dimensions given by the clamped rounding
formula. -/
lemma resize_image_dims (E : PILLib) (h : Heap) (r : Nat) (t pc : Int) (hpc : pc ≠ 0) :
    (resize_image E h r t pc).1.imgs.getD (resize_image E h r t pc).2 dfltImg =
      { width := (max 1 (pythonRound (((h.imgs.getD r dfltImg).width : ℚ) * (1 + (pc : ℚ) / 100)))).toNat
        height := (max 1 (pythonRound (((h.imgs.getD r dfltImg).height : ℚ) * (1 + (pc : ℚ) / 100)))).toNat
        mode := (h.imgs.getD r dfltImg).mode
        content := E.resampleContent (h.imgs.getD r dfltImg)
          ((max 1 (pythonRound (((h.imgs.getD r dfltImg).width : ℚ) * (1 + (pc : ℚ) / 100)))).toNat)
          ((max 1 (pythonRound (((h.imgs.getD r dfltImg).height : ℚ) * (1 + (pc : ℚ) / 100)))).toNat) } := by
  simp only [resize_image, if_pos hpc]
  rw [List.getD_eq_getElem?_getD, List.getElem?_concat_length]
  rfl

/-- C4: for every image of positive dimensions and every percentage in
-80..200, the result of `resize_image` has width
`max(1, round(w * (1 + pc/100)))` and height
`max(1, round(h * (1 + pc/100)))` (Python banker's rounding on the exact
value); both dimensions are at least 1, and a percentage of 0 leaves the
dimensions identical to the input. -/
theorem c4_resize_dimensions (E : PILLib) (h : Heap) (r : Nat) (targetKB pc : Int)
    (hlo : -80 ≤ pc) (hhi : pc ≤ 200)
    (hw : 1 ≤ (h.imgs.getD r dfltImg).width) (hh : 1 ≤ (h.imgs.getD r dfltImg).height) :
    ((resize_image E h r targetKB pc).1.imgs.getD (resize_image E h r targetKB pc).2 dfltImg).width
        = (max 1 (pythonRound (((h.imgs.getD r dfltImg).width : ℚ) * (1 + (pc : ℚ) / 100)))).toNat ∧
      ((resize_image E h r targetKB pc).1.imgs.getD (resize_image E h r targetKB pc).2 dfltImg).height
        = (max 1 (pythonRound (((h.imgs.getD r dfltImg).height : ℚ) * (1 + (pc : ℚ) / 100)))).toNat ∧
      1 ≤ ((resize_image E h r targetKB pc).1.imgs.getD (resize_image E h r targetKB pc).2 dfltImg).width ∧
      1 ≤ ((resize_image E h r targetKB pc).1.imgs.getD (resize_image E h r targetKB pc).2 dfltImg).height ∧
      (pc = 0 →
        ((resize_image E h r targetKB pc).1.imgs.getD (resize_image E h r targetKB pc).2 dfltImg).width
            = (h.imgs.getD r dfltImg).width ∧
          ((resize_image E h r targetKB pc).1.imgs.getD (resize_image E h r targetKB pc).2 dfltImg).height
            = (h.imgs.getD r dfltImg).height) := by
  by_cases hpc : pc = 0
  · subst hpc
    have hres : resize_image E h r targetKB 0 = (h, r) := by
      simp [resize_image]
    have hfml : ∀ n : ℕ, 1 ≤ n → (max 1 (pythonRound ((n : ℚ) * (1 + ((0:Int) : ℚ) / 100)))).toNat = n := by
      intro n hn
      rw [show (1 + ((0:Int) : ℚ) / 100) = 1 by push_cast; ring, mul_one, pythonRound_natCast]
      omega
    rw [hres]
    exact ⟨(hfml _ hw).symm, (hfml _ hh).symm, hw, hh, fun _ => ⟨rfl, rfl⟩⟩
  · rw [resize_image_dims E h r targetKB pc hpc]
    exact ⟨rfl, rfl, one_le_clamp _, one_le_clamp _, fun he => absurd he hpc⟩

/-- C4 witness: a 1920×1080 image shrunk by 50 percent. -/
theorem c4_witness :
    (-80 ≤ (-50 : Int) ∧ (-50 : Int) ≤ 200 ∧
        1 ≤ ((Heap.mk [Img.mk 1920 1080 "RGB" 0]).imgs.getD 0 dfltImg).width) ∧
      ((resize_image encLib1 (Heap.mk [Img.mk 1920 1080 "RGB" 0]) 0 0 (-50)).1.imgs.getD
          (resize_image encLib1 (Heap.mk [Img.mk 1920 1080 "RGB" 0]) 0 0 (-50)).2 dfltImg).width
        = (max 1 (pythonRound ((((Heap.mk [Img.mk 1920 1080 "RGB" 0]).imgs.getD 0 dfltImg).width : ℚ)
            * (1 + ((-50 : Int) : ℚ) / 100)))).toNat :=
  ⟨⟨by decide, by decide, by decide⟩,
    (c4_resize_dimensions encLib1 (Heap.mk [Img.mk 1920 1080 "RGB" 0]) 0 0 (-50)
      (by decide) (by decide) (by decide) (by decide)).1⟩

/-- C5: for PNG the quality search is skipped and a single optimized
encode is returned regardless of the target size and bounds, and in
`_img_to_bytes` the quality parameter has no effect on PNG output. -/
theorem c5_png_single_encode (E : PILLib) (img : Img) (targetKB q_low q_high q1 q2 : Int) (opt : Bool) :
    _binary_search_quality E img "PNG" targetKB q_low q_high = _img_to_bytes E img "PNG" 85 true ∧
      _img_to_bytes E img "PNG" q1 opt = _img_to_bytes E img "PNG" q2 opt := by
  constructor
  · simp only [_binary_search_quality]
    rw [if_pos (by decide : pyUpper "PNG" = "PNG")]
  · rfl

/-- C6: a target size of 0 or negative disables the quality search: for a
filename that does not select PNG, `export_image` returns the fixed
default-quality (85) JPEG encode. -/
theorem c6_nonpositive_target_default_encode (E : PILLib) (img : Img) (filename : String)
    (targetKB : Int) (hext : extOf filename ≠ "png") (ht : targetKB ≤ 0) :
    export_image E img filename targetKB = _img_to_bytes E img "JPEG" 85 true := by
  have hc : ¬ (targetKB ≠ 0 ∧ targetKB > 0) := by omega
  simp only [export_image]
  by_cases hj : extOf filename = "jpg" ∨ extOf filename = "jpeg"
  · rw [if_pos hj, if_neg hc]
  · rw [if_neg hj, if_neg hext, if_neg hc]

/-- C6 witness: exporting to "photo.jpg" with target 0 produces the
default-quality encode. -/
theorem c6_witness :
    (extOf "photo.jpg" ≠ "png" ∧ (0 : Int) ≤ 0) ∧
      export_image encLib1 constImg "photo.jpg" 0 = _img_to_bytes encLib1 constImg "JPEG" 85 true :=
  ⟨⟨by decide, by decide⟩,
    c6_nonpositive_target_default_encode encLib1 constImg "photo.jpg" 0 (by decide) (by decide)⟩

/-- C7 counterexample: with `percent_change = 0` the function returns the
input image reference itself with the heap unchanged — no new buffer is
allocated, contradicting "always allocates and returns a new image buffer
distinct from the input". -/
theorem c7_counterexample : resize_image encLib1 heap0 0 7 0 = (heap0, 0) := by decide

/-- C7 amended: `resize_image` never mutates existing buffers (every
previously allocated image is unchanged); when `percent_change ≠ 0` it
allocates exactly one new buffer and returns its (fresh, distinct)
reference, and when `percent_change = 0` it returns the input reference
itself without allocating. -/
theorem c7_amended_no_mutation (E : PILLib) (h : Heap) (r : Nat) (targetKB pc : Int) :
    (∀ i, i < h.imgs.length → (resize_image E h r targetKB pc).1.imgs[i]? = h.imgs[i]?) ∧
      (pc = 0 → resize_image E h r targetKB pc = (h, r)) ∧
      (pc ≠ 0 →
        (resize_image E h r targetKB pc).2 = h.imgs.length ∧
          (resize_image E h r targetKB pc).1.imgs.length = h.imgs.length + 1 ∧
          (r < h.imgs.length → (resize_image E h r targetKB pc).2 ≠ r)) := by
  by_cases hpc : pc = 0
  · subst hpc
    have hres : resize_image E h r targetKB 0 = (h, r) := by simp [resize_image]
    rw [hres]
    exact ⟨fun i _ => rfl, fun _ => rfl, fun hne => absurd rfl hne⟩
  · refine ⟨fun i hi => ?_, fun he => absurd he hpc, fun _ => ⟨?_, ?_, fun hr => ?_⟩⟩
    · simp only [resize_image, if_pos hpc]
      exact List.getElem?_append_left hi
    · simp [resize_image, hpc]
    · simp [resize_image, hpc]
    · simp only [resize_image, if_pos hpc]
      omega

/-- C7 amended witness: resizing the one-image heap by +3 percent keeps
buffer 0 intact and returns a reference distinct from the input. -/
theorem c7_amended_witness :
    (resize_image encLib1 heap0 0 7 3).1.imgs[0]? = heap0.imgs[0]? ∧
      (resize_image encLib1 heap0 0 7 3).2 ≠ 0 :=
  ⟨(c7_amended_no_mutation encLib1 heap0 0 7 3).1 0 (by decide),
    ((c7_amended_no_mutation encLib1 heap0 0 7 3).2.2 (by decide)).2.2 (by decide)⟩

/-- C9: the result of `resize_image` is independent of its
`target_size_kb` argument — two runs differing only in the target size
return identical heaps and references. -/
theorem c9_resize_ignores_target (E : PILLib) (h : Heap) (r : Nat) (t1 t2 pc : Int) :
    resize_image E h r t1 pc = resize_image E h r t2 pc := rfl
